import Mathlib

/-!
Verification of the multi-agent traffic-coordination repository
(`autogen_agent.py`, the console variant, and `mas_visualization/main.py`,
the web variant).

The embedding below translates the deterministic bookkeeping parts of the
program: the commitment data model, the reputation updates, the negotiation
heuristic, the violation check, the commitment-execution step, persistence
(save/load of `commitments.json`), and the JSON-fragment extraction of
`parse_commitment_from_text`.  The language-model calls, the prompts and the
web plumbing produce free-form text that only re-enters the deterministic
core through the `ACCEPT`/`COUNTER`/`REJECT` prefix classification and the
parsed JSON terms; those entry points are modelled as explicit parameters
(`EvalOutcome`, `ParsedTerms`, the abstract `jsonLoads` function).

Python `datetime` values are modelled as `Nat` timestamps (`isoformat` is
injective on datetimes, so the dedup key `(debtor, creditor, created_at)`
is faithfully `(String, String, Nat)`).  Python dictionaries of reputation
scores are modelled as total functions `String → Int`: every read in the
program either uses `.get(name, 10)` (application of the function, whose
initial value is the constant 10) or reads a key that the constructor
initialised, so the total-function view coincides with the dict on every
reachable access.
-/

/-- The `Commitment` dataclass shared by both variants
(`autogen_agent.py` lines 30-39, `main.py` lines 77-86). -/
structure Commitment where
  debtor : String
  creditor : String
  time_adjustment : Int
  future_obligation : String
  created_at : Nat
  episode : String
  status : String := "pending"
deriving DecidableEq, Repr

/-- The bookkeeping state of a `ClassroomAgent`
(`autogen_agent.py` lines 134-139, `main.py` lines 181-186); the prompt
and LLM-client fields are irrelevant to the claims and omitted. -/
structure ClassroomAgent where
  name : String
  student_count : Nat
  commitments_made : List Commitment
  commitments_received : List Commitment
  reputation_scores : String → Int
  violation_count : Nat

/-- The adjustment heuristic at the top of `ClassroomAgent.propose_commitment`
(`autogen_agent.py` lines 146-150, `main.py` lines 193-197):
`if congestion_level > 0.7: adjustment = -4 elif congestion_level > 0.4:
adjustment = -2 else: adjustment = -1`.  The congestion float is modelled as
a rational; all comparisons appearing in the claims agree between IEEE
doubles of the decimal literals and exact rationals. -/
def propose_adjustment (congestion_level : ℚ) : Int :=
  if congestion_level > 0.7 then -4
  else if congestion_level > 0.4 then -2
  else -1

/-- Pointwise update of one entry of a reputation table
(one Python dict assignment `rep[q] = v`). -/
def setScore (rep : String → Int) (q : String) (v : Int) : String → Int :=
  fun x => if x = q then v else rep x

/-- One dict assignment of the `success` branch of `update_reputations`:
`agent1.reputation_scores[agent2.name] =
 min(15, agent1.reputation_scores.get(agent2.name, 10) + 1)`,
on the reputation state viewed as a matrix `rep p q` = participant `p`'s
score of peer `q`. -/
def bumpScore (rep : String → String → Int) (a1 a2 : String) :
    String → String → Int :=
  fun p => if p = a1 then setScore (rep p) a2 (min 15 (rep a1 a2 + 1)) else rep p

/-- The dict assignment of the `violation` branch of `update_reputations`:
`agent1.reputation_scores[agent2.name] =
 max(0, agent1.reputation_scores.get(agent2.name, 10) - 5)`. -/
def dropScore (rep : String → String → Int) (a1 a2 : String) :
    String → String → Int :=
  fun p => if p = a1 then setScore (rep p) a2 (max 0 (rep a1 a2 - 5)) else rep p

/-- The nested helper `update_reputations` (`autogen_agent.py` lines 310-315,
`main.py` lines 383-392).  On `'success'` both sides gain one point (clamped
at 15; two sequential dict assignments); on `'violation'` only `a1`'s (the
initiator's) score of `a2` (the violator) drops by five (clamped at 0).
`dict.get(name, 10)` is function application since the table is total with
initial value 10. -/
def update_reputations_matrix (rep : String → String → Int)
    (a1 a2 : String) (outcome : String) : String → String → Int :=
  if outcome = "success" then
    bumpScore (bumpScore rep a1 a2) a2 a1
  else if outcome = "violation" then
    dropScore rep a1 a2
  else rep

/-- Initial reputation state: every participant scores every peer 10
(`reputation_scores = {name: 10 for name in all_agent_names ...}`). -/
def initial_reputation : String → String → Int := fun _ _ => 10

/-- A sequence of `update_reputations` calls, each given by
(agent1 name, agent2 name, outcome string), applied from the initial state. -/
def apply_rep_events (evs : List (String × String × String)) :
    String → String → Int :=
  evs.foldl (fun rep e => update_reputations_matrix rep e.1 e.2.1 e.2.2)
    initial_reputation

/-- Reputation bounds invariant used throughout: every score in [0, 15]. -/
def RepMatrixInBounds (rep : String → String → Int) : Prop :=
  ∀ p q, 0 ≤ rep p q ∧ rep p q ≤ 15

/-- The character `{` (written via its code point to keep string/char
literals plain). -/
def openBrace : Char := Char.ofNat 123

/-- The character `}`. -/
def closeBrace : Char := Char.ofNat 125

/-- Python `text.find(c)` restricted to a single character: index of the
first occurrence, as an `Option`. -/
def strFind (c : Char) : List Char → Option Nat
  | [] => none
  | a :: rest => if a = c then some 0 else (strFind c rest).map (· + 1)

/-- Python `text.rfind(c)`: index of the last occurrence, as an `Option`. -/
def strRFind (c : Char) : List Char → Option Nat
  | [] => none
  | a :: rest =>
    match strRFind c rest with
    | some j => some (j + 1)
    | none => if a = c then some 0 else none

/-- Python `str.find`: first index or -1. -/
def pyFind (s : List Char) (c : Char) : Int :=
  match strFind c s with
  | some i => (i : Int)
  | none => -1

/-- Python `str.rfind`: last index or -1. -/
def pyRFind (s : List Char) (c : Char) : Int :=
  match strRFind c s with
  | some i => (i : Int)
  | none => -1

/-- Normalization of one Python slice bound: a negative index counts from the
end (clamped below at 0), a non-negative one is clamped above at the
length. -/
def pySliceIndex (len : Nat) (i : Int) : Nat :=
  if i < 0 then (i + len).toNat else min i.toNat len

/-- Python slice `s[a:b]` (step 1): the elements with positions in
`[normalize a, normalize b)`. -/
def pySlice (s : List Char) (a b : Int) : List Char :=
  (s.take (pySliceIndex s.length b)).drop (pySliceIndex s.length a)

/-- `ClassroomAgent.parse_commitment_from_text` (`autogen_agent.py` lines
235-242, `main.py` lines 282-289):
`json_str = text[text.find('\x7b'):text.rfind('\x7d')+1]` followed by
`json.loads(json_str)`, returning `None` when the parse fails (the
`try/except` catches `JSONDecodeError`).  `json.loads` is abstracted as a
function `jsonLoads : List Char → Option α` whose `none` results stand for
the caught exceptions. -/
def parse_commitment_from_text {α : Type} (jsonLoads : List Char → Option α)
    (text : List Char) : Option α :=
  jsonLoads (pySlice text (pyFind text openBrace) (pyRFind text closeBrace + 1))

/-- The description of the claim: the substring from the first `{` to the
last `}` inclusive, when both exist in that order. -/
def bracesSubstring (text : List Char) : Option (List Char) :=
  match strFind openBrace text, strRFind closeBrace text with
  | some i, some j => if i ≤ j then some ((text.take (j + 1)).drop i) else none
  | _, _ => none

/-- Head of Python's stable descending sort by `key`
(`sorted(lst, key=key, reverse=True)[0]`): the first element of the list
attaining the maximal key (Python's sort is stable, so ties keep original
order and the head is the earliest maximum). -/
def maxByFirst {β : Type} [LinearOrder β] (key : ClassroomAgent → β) :
    List ClassroomAgent → Option ClassroomAgent
  | [] => none
  | a :: rest => some (rest.foldl (fun best x => if key x > key best then x else best) a)

/-- The initiator selection of the negotiation phase
(`autogen_agent.py` lines 295-296, `main.py` lines 366-367):
`agents_by_pressure = sorted(self.classroom_agents,
 key=lambda a: a.student_count, reverse=True); initiator =
 agents_by_pressure[0]`. -/
def pickInitiator (agents : List ClassroomAgent) : Option ClassroomAgent :=
  maxByFirst (fun a => a.student_count) agents

/-- The debt-settling scan of `select_negotiation_target`
(`autogen_agent.py` lines 458-463, `main.py` lines 537-542): the first
pending commitment of the initiator whose creditor names one of the
potential targets determines the target. -/
def firstDebtTarget : List Commitment → List ClassroomAgent → Option ClassroomAgent
  | [], _ => none
  | c :: rest, targets =>
    if c.status = "pending" then
      match targets.find? (fun t => t.name == c.creditor) with
      | some t => some t
      | none => firstDebtTarget rest targets
    else firstDebtTarget rest targets

/-- `MultiAgentTrafficSystem.select_negotiation_target`
(`autogen_agent.py` lines 453-467, `main.py` lines 532-546): peers other than
the initiator; a peer owed a pending debt if any, else the peer with the
highest reputation score in the initiator's table (head of the stable
descending sort).  The source's early `return None` on an empty target list
is subsumed: both the debt scan and `maxByFirst` return `none` on `[]`. -/
def select_negotiation_target (agents : List ClassroomAgent)
    (initiator : ClassroomAgent) : Option ClassroomAgent :=
  let potential_targets := agents.filter (fun a => a.name != initiator.name)
  match firstDebtTarget initiator.commitments_made potential_targets with
  | some t => some t
  | none => maxByFirst (fun a => initiator.reputation_scores a.name) potential_targets

/-- The JSON terms parsed out of a proposal's structured fragment: the
keyword arguments handed to `create_commitment(**parsed_terms)`. -/
structure ParsedTerms where
  debtor : String
  creditor : String
  time_adjustment : Int
  future_obligation : String
deriving DecidableEq, Repr

/-- `ClassroomAgent.create_commitment` (`autogen_agent.py` lines 175-185,
`main.py` lines 222-232): a fresh record with `created_at = datetime.now()`
(the `now` parameter), episode `"Monday_11AM"` and the default status
`"pending"`. -/
def create_commitment (p : ParsedTerms) (now : Nat) : Commitment :=
  { debtor := p.debtor, creditor := p.creditor,
    time_adjustment := p.time_adjustment,
    future_obligation := p.future_obligation,
    created_at := now, episode := "Monday_11AM" }

/-- Per-agent effect of the web variant's commitment distribution
(`main.py` lines 411-412 and 429-430):
`agent_map[commitment.debtor].commitments_made.append(commitment)` and
`agent_map[commitment.creditor].commitments_received.append(commitment)`. -/
def distribute_touch (c : Commitment) (a : ClassroomAgent) : ClassroomAgent :=
  { a with
    commitments_made :=
      a.commitments_made ++ (if a.name = c.debtor then [c] else []),
    commitments_received :=
      a.commitments_received ++ (if a.name = c.creditor then [c] else []) }

/-- Web variant: the new commitment goes to the made list of the agent named
by the parsed `debtor` and to the received list of the agent named by the
parsed `creditor`. -/
def distribute_commitment (agents : List ClassroomAgent) (c : Commitment) :
    List ClassroomAgent :=
  agents.map (distribute_touch c)

/-- Per-agent effect of the console variant's commitment distribution
(`autogen_agent.py` lines 334-335):
`initiator.commitments_made.append(commitment);
 target.commitments_received.append(commitment)` — the lists of the
negotiating pair, regardless of the parsed debtor/creditor fields. -/
def distribute_touch_console (initiatorName targetName : String)
    (c : Commitment) (a : ClassroomAgent) : ClassroomAgent :=
  { a with
    commitments_made :=
      a.commitments_made ++ (if a.name = initiatorName then [c] else []),
    commitments_received :=
      a.commitments_received ++ (if a.name = targetName then [c] else []) }

/-- Console variant distribution over the agent list. -/
def distribute_commitment_console (agents : List ClassroomAgent)
    (initiatorName targetName : String) (c : Commitment) :
    List ClassroomAgent :=
  agents.map (distribute_touch_console initiatorName targetName c)

/-- One `success` dict assignment of `update_reputations` on a single
agent's table. -/
def bumpAgentScore (a : ClassroomAgent) (peer : String) : ClassroomAgent :=
  { a with reputation_scores :=
      setScore a.reputation_scores peer (min 15 (a.reputation_scores peer + 1)) }

/-- Per-agent effect of `update_reputations(n1, n2, 'success')`: both named
agents bump their score of the other (clamped at 15). -/
def success_touch (n1 n2 : String) (a : ClassroomAgent) : ClassroomAgent :=
  let a1 := if a.name = n1 then bumpAgentScore a n2 else a
  if a.name = n2 then bumpAgentScore a1 n1 else a1

/-- `update_reputations(initiator, target, 'success')` over the agent list. -/
def update_reputations_success (agents : List ClassroomAgent) (n1 n2 : String) :
    List ClassroomAgent :=
  agents.map (success_touch n1 n2)

/-- The running state of a `check_for_violation` call: the commitments
processed so far (with statuses updated), the number of violations recorded,
and the initiator's running reputation score of the violator. -/
structure CheckState where
  processed : List Commitment
  extraViolations : Nat
  repScore : Int
deriving DecidableEq, Repr

/-- One iteration of the web variant's `check_for_violation` loop
(`main.py` lines 396-404): a commitment whose creditor is the initiator and
whose status is `"pending"` is marked `"violated"`, the violator's
`violation_count` grows by one and the initiator's score of the violator
drops by five (clamped at 0, via `update_reputations(..., 'violation')`). -/
def check_step (initiatorName : String) (st : CheckState) (c : Commitment) :
    CheckState :=
  if c.creditor = initiatorName ∧ c.status = "pending" then
    { processed := st.processed ++ [{ c with status := "violated" }],
      extraViolations := st.extraViolations + 1,
      repScore := max 0 (st.repScore - 5) }
  else { st with processed := st.processed ++ [c] }

/-- The web variant's `check_for_violation` (`main.py` lines 394-404): the
loop runs over the whole `commitments_made` list with no early exit, so every
matching pending commitment is marked. -/
def check_for_violation_web (made : List Commitment) (initiatorName : String)
    (repScore : Int) : CheckState :=
  made.foldl (check_step initiatorName) ⟨[], 0, repScore⟩

/-- The console variant's `check_for_violation`
(`autogen_agent.py` lines 317-326) together with the console
`update_reputations` violation branch it calls (line 315).  That branch reads
the name `violator`, which is bound nowhere in its scope — it is only a
parameter of the sibling function `check_for_violation` and a keyword label
at the call sites, never a variable of the enclosing
`run_coordination_episode` or of the module — so Python raises `NameError`
there, before any score is written (the failing read sits in the assignment's
right-hand side).  At the first matching pending commitment the loop has
already set the commitment's status to `"violated"` and incremented the
violator's `violation_count`; the exception then aborts the call, leaving
the initiator's score of the violator unchanged and the remaining
commitments unvisited.  `Except.error` carries the state the exception
leaves behind; `Except.ok` is the normal no-match return. -/
def check_for_violation_console (initiatorName : String) (repScore : Int) :
    List Commitment → Except CheckState CheckState
  | [] => .ok ⟨[], 0, repScore⟩
  | c :: rest =>
    if c.creditor = initiatorName ∧ c.status = "pending" then
      .error ⟨{ c with status := "violated" } :: rest, 1, repScore⟩
    else
      match check_for_violation_console initiatorName repScore rest with
      | .ok st => .ok ⟨c :: st.processed, st.extraViolations, st.repScore⟩
      | .error st => .error ⟨c :: st.processed, st.extraViolations, st.repScore⟩

/-- Marking of only the first matching pending commitment — the statuses the
console loop leaves behind when the `NameError` aborts it. -/
def mark_first (initiatorName : String) : List Commitment → List Commitment
  | [] => []
  | c :: rest =>
    if c.creditor = initiatorName ∧ c.status = "pending" then
      { c with status := "violated" } :: rest
    else c :: mark_first initiatorName rest

/-- The effect of one commitment under the web violation check: `"pending"`
toward the initiator becomes `"violated"`; everything else is untouched. -/
def check_mark (initiatorName : String) (c : Commitment) : Commitment :=
  if c.creditor = initiatorName ∧ c.status = "pending" then
    { c with status := "violated" } else c

/-- Per-agent effect of applying a finished violation check to the system:
the violator receives the processed list and the violation count, the
initiator's score of the violator is overwritten with the resulting value. -/
def check_touch (violatorName initiatorName : String) (st : CheckState)
    (a : ClassroomAgent) : ClassroomAgent :=
  let a1 := if a.name = violatorName then
    { a with
      commitments_made := st.processed,
      violation_count := a.violation_count + st.extraViolations }
    else a
  if a.name = initiatorName then
    { a1 with reputation_scores :=
        setScore a1.reputation_scores violatorName st.repScore } else a1

/-- `check_for_violation(target, initiator)` in the web variant, lifted to
the agent list: the violator and initiator objects are resolved by name
(Python passes the objects themselves; names are unique in every system the
constructor builds). -/
def apply_check_web (agents : List ClassroomAgent)
    (violatorName initiatorName : String) : List ClassroomAgent :=
  match agents.find? (fun a => a.name == violatorName),
      agents.find? (fun a => a.name == initiatorName) with
  | some v, some i =>
    agents.map (check_touch violatorName initiatorName
      (check_for_violation_web v.commitments_made initiatorName
        (i.reputation_scores violatorName)))
  | _, _ => agents

/-- The classification of the target's reply in step 4
(`evaluation.strip().upper().startswith(...)`): `ACCEPT`, `COUNTER` (with
the initiator's subsequent accept/reject of the counter-offer), or the
`REJECT` fallthrough. -/
inductive EvalOutcome
  | accept
  | counter (counterAccepted : Bool)
  | reject
deriving DecidableEq, Repr

/-- Step 4 (COMMITMENT EXECUTION) of the web variant's
`run_coordination_episode` (`main.py` lines 406-439).  On `ACCEPT` with
parseable terms, a commitment is created and distributed and both
reputations bump; on `COUNTER` the violation check runs against the target
first, then the counter-offer may be accepted in turn; on `REJECT` only the
violation check runs.  `parsed` is the result of
`parse_commitment_from_text` on the relevant message. -/
def commitment_execution_web (agents : List ClassroomAgent)
    (initiatorName targetName : String) (outcome : EvalOutcome)
    (parsed : Option ParsedTerms) (now : Nat) : List ClassroomAgent :=
  match outcome with
  | .accept =>
    match parsed with
    | some p =>
      update_reputations_success
        (distribute_commitment agents (create_commitment p now))
        initiatorName targetName
    | none => agents
  | .counter counterAccepted =>
    let agents1 := apply_check_web agents targetName initiatorName
    if counterAccepted then
      match parsed with
      | some p =>
        update_reputations_success
          (distribute_commitment agents1 (create_commitment p now))
          initiatorName targetName
      | none => agents1
    else agents1
  | .reject => apply_check_web agents targetName initiatorName

/-- The `ACCEPT` branch of the console variant's step 4
(`autogen_agent.py` lines 328-337): the new commitment is appended to the
*initiator's* made list and the *target's* received list (not resolved
through the parsed debtor/creditor names). -/
def commitment_execution_console_accept (agents : List ClassroomAgent)
    (initiatorName targetName : String) (parsed : Option ParsedTerms)
    (now : Nat) : List ClassroomAgent :=
  match parsed with
  | some p =>
    update_reputations_success
      (distribute_commitment_console agents initiatorName targetName
        (create_commitment p now))
      initiatorName targetName
  | none => agents

/-- The identity tuple used by `save_commitments_to_file` to deduplicate:
`(commitment.debtor, commitment.creditor, commitment.created_at.isoformat())`. -/
abbrev CommitId := String × String × Nat

/-- The dedup key of a commitment record. -/
def commitId (c : Commitment) : CommitId := (c.debtor, c.creditor, c.created_at)

/-- The persisted JSON file: an array of commitment records plus the map
from participant name to its reputation table. -/
structure SavedState where
  commitments : List Commitment
  reputations : List (String × (String → Int))

/-- One iteration of the save loop (`main.py` lines 478-486): append the
record and remember its id unless the id was already seen. -/
def save_step (acc : List Commitment × List CommitId) (c : Commitment) :
    List Commitment × List CommitId :=
  if commitId c ∈ acc.2 then acc
  else (acc.1 ++ [c], acc.2 ++ [commitId c])

/-- `MultiAgentTrafficSystem.save_commitments_to_file`
(`autogen_agent.py` lines 392-413, `main.py` lines 471-492): walk every
agent's `commitments_made`, dedup by the identity tuple, and dump all
reputation tables keyed by agent name. -/
def save_commitments_to_file (agents : List ClassroomAgent) : SavedState :=
  { commitments :=
      (agents.foldl (fun acc a => a.commitments_made.foldl save_step acc)
        ([], [])).1,
    reputations := agents.map (fun a => (a.name, a.reputation_scores)) }

/-- The clearing pass of `load_commitments_from_file`
(`main.py` lines 503-505): both lists emptied before loading. -/
def clear_lists (a : ClassroomAgent) : ClassroomAgent :=
  { a with commitments_made := [], commitments_received := [] }

/-- Per-agent effect of loading one record (`main.py` lines 509-515):
appended to the made list of the agent named by the record's debtor and to
the received list of the agent named by its creditor, skipped for names not
in `agent_map`. -/
def load_touch (c : Commitment) (a : ClassroomAgent) : ClassroomAgent :=
  { a with
    commitments_made :=
      a.commitments_made ++ (if a.name = c.debtor then [c] else []),
    commitments_received :=
      a.commitments_received ++ (if a.name = c.creditor then [c] else []) }

/-- Loading one record over the agent list. -/
def load_commit (agents : List ClassroomAgent) (c : Commitment) :
    List ClassroomAgent :=
  agents.map (load_touch c)

/-- The reputation pass of `load_commitments_from_file`
(`main.py` lines 518-521): each persisted table is installed on the agent of
that name.  (The web variant merges with `.update(...)`, the console variant
assigns; on files produced by `save_commitments_to_file` the persisted table
covers every stored key, so both coincide with installation.) -/
def load_reputations (agents : List ClassroomAgent)
    (reps : List (String × (String → Int))) : List ClassroomAgent :=
  reps.foldl (fun ags nr =>
    ags.map (fun a =>
      if a.name = nr.1 then { a with reputation_scores := nr.2 } else a)) agents

/-- `MultiAgentTrafficSystem.load_commitments_from_file`
(`autogen_agent.py` lines 415-449, `main.py` lines 494-528) on a present,
well-formed file: clear both lists of every agent, re-distribute every
record by its debtor/creditor names, then install the reputations. -/
def load_commitments_from_file (file : SavedState)
    (agents : List ClassroomAgent) : List ClassroomAgent :=
  load_reputations (file.commitments.foldl load_commit (agents.map clear_lists))
    file.reputations

/-- All commitment records reachable through made lists, in agent order —
exactly what the save loop traverses. -/
def allMade (agents : List ClassroomAgent) : List Commitment :=
  (agents.map (fun a => a.commitments_made)).flatten

/-- The episode's `try/finally`: whatever step 4 does, the episode runs to
the end and the state is saved (`main.py` lines 443-447). -/
def run_episode_web_save (agents : List ClassroomAgent)
    (initiatorName targetName : String) (outcome : EvalOutcome)
    (parsed : Option ParsedTerms) (now : Nat) : SavedState :=
  save_commitments_to_file
    (commitment_execution_web agents initiatorName targetName outcome parsed now)

/-- Bounds invariant for a single reputation table. -/
def RepTableInBounds (t : String → Int) : Prop :=
  ∀ q, 0 ≤ t q ∧ t q ≤ 15

/-- A reputation table holding the initial score 10 for every peer. -/
def demoRep : String → Int := fun _ => 10

/-- A concrete classroom agent used to instantiate theorems with hypotheses. -/
def demoAgent1 : ClassroomAgent :=
  { name := "ClassroomAgent_C1", student_count := 60, commitments_made := [],
    commitments_received := [], reputation_scores := demoRep, violation_count := 0 }

/-- A second concrete classroom agent. -/
def demoAgent2 : ClassroomAgent :=
  { name := "ClassroomAgent_C2", student_count := 40, commitments_made := [],
    commitments_received := [], reputation_scores := demoRep, violation_count := 0 }

/-- A concrete two-participant system. -/
def demoAgents : List ClassroomAgent := [demoAgent1, demoAgent2]

/-- A pending commitment owed by `ClassroomAgent_C2` to `ClassroomAgent_C1`. -/
def pendingDemoCommit : Commitment :=
  { debtor := "ClassroomAgent_C2", creditor := "ClassroomAgent_C1",
    time_adjustment := -2, future_obligation := "a future favor",
    created_at := 0, episode := "Monday_11AM" }

/-- A second pending commitment between the same pair (later timestamp). -/
def pendingDemoCommit2 : Commitment := { pendingDemoCommit with created_at := 1 }

/-- The two-participant system in which `ClassroomAgent_C2` owes a pending
commitment to `ClassroomAgent_C1`. -/
def demoAgentsWithDebt : List ClassroomAgent :=
  [demoAgent1, { demoAgent2 with commitments_made := [pendingDemoCommit] }]

/-- Parsed terms whose debtor is the target and creditor the initiator —
the swap of the roles the proposal prompt dictates. -/
def swappedTerms : ParsedTerms :=
  { debtor := "ClassroomAgent_C2", creditor := "ClassroomAgent_C1",
    time_adjustment := -2, future_obligation := "a future favor" }

/-- Parsed terms matching the proposal prompt: debtor = initiator,
creditor = target. -/
def matchedTerms : ParsedTerms :=
  { debtor := "ClassroomAgent_C1", creditor := "ClassroomAgent_C2",
    time_adjustment := -2, future_obligation := "a future favor" }

/-- A commitment whose debtor is not the name of any current participant. -/
def ghostCommit : Commitment :=
  { debtor := "GhostAgent", creditor := "ClassroomAgent_C2",
    time_adjustment := -2, future_obligation := "a future favor",
    created_at := 0, episode := "Monday_11AM" }

/-- A system in which `ClassroomAgent_C1`'s made list holds a commitment
recorded under a foreign debtor name (the console `ACCEPT` branch appends to
the initiator's made list whatever debtor the parsed terms name). -/
def ghostHolderAgents : List ClassroomAgent :=
  [{ demoAgent1 with commitments_made := [ghostCommit] }, demoAgent2]

/-- A parser refusing every input, used to instantiate the parse theorem. -/
def constNoneParser : List Char → Option Unit := fun _ => none

lemma setScore_bounds {rep : String → Int} {q : String} {v : Int}
    (hrep : ∀ x, 0 ≤ rep x ∧ rep x ≤ 15) (hv : 0 ≤ v ∧ v ≤ 15) :
    ∀ x, 0 ≤ setScore rep q v x ∧ setScore rep q v x ≤ 15 := by
  intro x
  unfold setScore
  by_cases h : x = q <;> simp [h, hv, hrep x]

lemma bumpScore_bounds {rep : String → String → Int}
    (hrep : RepMatrixInBounds rep) (a1 a2 : String) :
    RepMatrixInBounds (bumpScore rep a1 a2) := by
  intro p q
  unfold bumpScore
  by_cases h : p = a1
  · subst h
    simp only [if_pos rfl]
    refine setScore_bounds (fun x => hrep p x) ?_ q
    have := hrep p a2
    omega
  · simpa [h] using hrep p q

lemma dropScore_bounds {rep : String → String → Int}
    (hrep : RepMatrixInBounds rep) (a1 a2 : String) :
    RepMatrixInBounds (dropScore rep a1 a2) := by
  intro p q
  unfold dropScore
  by_cases h : p = a1
  · subst h
    simp only [if_pos rfl]
    refine setScore_bounds (fun x => hrep p x) ?_ q
    have := hrep p a2
    omega
  · simpa [h] using hrep p q

lemma update_reputations_matrix_bounds {rep : String → String → Int}
    (hrep : RepMatrixInBounds rep) (a1 a2 : String) (outcome : String) :
    RepMatrixInBounds (update_reputations_matrix rep a1 a2 outcome) := by
  unfold update_reputations_matrix
  split_ifs
  · exact bumpScore_bounds (bumpScore_bounds hrep a1 a2) a2 a1
  · exact dropScore_bounds hrep a1 a2
  · exact hrep

lemma apply_rep_events_bounds (evs : List (String × String × String)) :
    RepMatrixInBounds (apply_rep_events evs) := by
  unfold apply_rep_events
  have main : ∀ (l : List (String × String × String)) (rep : String → String → Int),
      RepMatrixInBounds rep →
      RepMatrixInBounds (l.foldl (fun rep e => update_reputations_matrix rep e.1 e.2.1 e.2.2) rep) := by
    intro l
    induction l with
    | nil => intro rep h; simpa using h
    | cons e rest ih =>
        intro rep h
        exact ih _ (update_reputations_matrix_bounds h e.1 e.2.1 e.2.2)
  exact main evs initial_reputation (by intro p q; norm_num [initial_reputation])

lemma strFind_lt_length {c : Char} : ∀ {s : List Char} {i : Nat},
    strFind c s = some i → i < s.length := by
  intro s
  induction s with
  | nil => intro i h; simp [strFind] at h
  | cons a rest ih =>
      intro i h
      simp only [strFind] at h
      by_cases hac : a = c
      · rw [if_pos hac] at h
        simp only [Option.some.injEq] at h
        subst h
        simp
      · rw [if_neg hac, Option.map_eq_some'] at h
        obtain ⟨j, hj, rfl⟩ := h
        have := ih hj
        simp only [List.length_cons]
        omega

lemma strRFind_lt_length {c : Char} : ∀ {s : List Char} {i : Nat},
    strRFind c s = some i → i < s.length := by
  intro s
  induction s with
  | nil => intro i h; simp [strRFind] at h
  | cons a rest ih =>
      intro i h
      simp only [strRFind] at h
      cases hr : strRFind c rest with
      | some j =>
          rw [hr] at h
          simp only [Option.some.injEq] at h
          have := ih hr
          simp only [List.length_cons]
          omega
      | none =>
          rw [hr] at h
          by_cases hac : a = c
          · simp [hac] at h
            simp [← h]
          · simp [hac] at h

lemma strRFind_getElem {c : Char} : ∀ {s : List Char} {i : Nat}
    (h : strRFind c s = some i) (hlt : i < s.length), s[i] = c := by
  intro s
  induction s with
  | nil => intro i h hlt; simp [strRFind] at h
  | cons a rest ih =>
      intro i h hlt
      simp only [strRFind] at h
      cases hr : strRFind c rest with
      | some j =>
          rw [hr] at h
          simp only [Option.some.injEq] at h
          subst h
          have hj := strRFind_lt_length hr
          simpa using ih hr hj
      | none =>
          rw [hr] at h
          by_cases hac : a = c
          · simp only [if_pos hac, Option.some.injEq] at h
            subst h
            simpa using hac
          · simp [hac] at h

lemma drop_take_eq_nil {s : List Char} {k m : Nat} (h : min k s.length ≤ m) :
    (s.take k).drop m = [] := by
  apply List.drop_eq_nil_of_le
  simpa using h

/-- C10: `parse_commitment_from_text` is total (never raises), and for every
input string it returns the parse of the substring from the first `{` to the
last `}` when the parser succeeds on it, and `None` otherwise — in particular
`None` whenever the string lacks a `{`, lacks a `}`, or has its last `}`
before its first `{` (in those cases the Python slice degenerates to the
empty string or to the single character `}`, on which any JSON parser
fails). -/
theorem parse_commitment_extracts_braces {α : Type}
    (jsonLoads : List Char → Option α)
    (hEmpty : jsonLoads [] = none)
    (hBrace : jsonLoads [closeBrace] = none)
    (text : List Char) :
    parse_commitment_from_text jsonLoads text =
      (bracesSubstring text).bind jsonLoads := by
  unfold parse_commitment_from_text bracesSubstring pyFind pyRFind
  cases hf : strFind openBrace text with
  | none =>
      cases hr : strRFind closeBrace text with
      | none =>
          -- slice text[-1:0] = []
          have h0 : pySlice text (-1) 0 = [] := by
            unfold pySlice pySliceIndex
            norm_num
          simpa [h0] using hEmpty
      | some j =>
          have hj := strRFind_lt_length hr
          have hgj := strRFind_getElem hr hj
          -- slice text[-1:j+1]
          rcases Nat.lt_or_ge (j + 1) text.length with hcase | hcase
          · -- strictly before the last position: empty slice
            have : pySlice text (-1) ((j : Int) + 1) = [] := by
              unfold pySlice pySliceIndex
              have h1 : ¬((j : Int) + 1 < 0) := by omega
              have h2 : ((-1 : Int) + (text.length : Int)).toNat = text.length - 1 := by
                omega
              rw [if_pos (by norm_num), if_neg h1, h2]
              apply drop_take_eq_nil
              have : ((j : Int) + 1).toNat = j + 1 := by omega
              rw [this]
              omega
            simpa [this] using hEmpty
          · -- the last `}` is the last character: slice is exactly "}"
            have hlen : j + 1 = text.length := by omega
            have : pySlice text (-1) ((j : Int) + 1) = [closeBrace] := by
              unfold pySlice pySliceIndex
              have h1 : ¬((j : Int) + 1 < 0) := by omega
              have h2 : ((-1 : Int) + (text.length : Int)).toNat = text.length - 1 := by
                omega
              have h3 : min ((j : Int) + 1).toNat text.length = text.length := by
                omega
              rw [if_pos (by norm_num), if_neg h1, h2, h3, List.take_length]
              have hd : text.drop (text.length - 1) = text[text.length - 1] :: text.drop (text.length - 1 + 1) := by
                exact List.drop_eq_getElem_cons (by omega)
              rw [hd]
              have : text.length - 1 + 1 = text.length := by omega
              rw [this, List.drop_length]
              have : text[text.length - 1] = text[j] := by
                congr 1
                omega
              rw [this, hgj]
            simpa [this] using hBrace
  | some i =>
      have hi := strFind_lt_length hf
      cases hr : strRFind closeBrace text with
      | none =>
          -- slice text[i:0] = []
          have h0 : pySlice text (i : Int) 0 = [] := by
            unfold pySlice pySliceIndex
            norm_num
          simpa [h0] using hEmpty
      | some j =>
          rcases le_or_lt i j with hij | hij
          · -- the claimed substring
            have : pySlice text (i : Int) ((j : Int) + 1) = (text.take (j + 1)).drop i := by
              unfold pySlice pySliceIndex
              have hj := strRFind_lt_length hr
              have h1 : ¬((j : Int) + 1 < 0) := by omega
              have h2 : ¬((i : Int) < 0) := by omega
              have h3 : min ((j : Int) + 1).toNat text.length = j + 1 := by omega
              have h4 : min (i : Int).toNat text.length = i := by omega
              rw [if_neg h1, if_neg h2, h3, h4]
            simp [this, hij]
          · -- last `}` strictly before first `{`: empty slice
            have : pySlice text (i : Int) ((j : Int) + 1) = [] := by
              unfold pySlice pySliceIndex
              have h1 : ¬((j : Int) + 1 < 0) := by omega
              have h2 : ¬((i : Int) < 0) := by omega
              have h4 : min (i : Int).toNat text.length = i := by omega
              rw [if_neg h1, if_neg h2, h4]
              apply drop_take_eq_nil
              omega
            have hij' : ¬(i ≤ j) := by omega
            simp [this, hij', hEmpty]

lemma foldl_max_spec {β : Type} [LinearOrder β] (key : ClassroomAgent → β) :
    ∀ (rest : List ClassroomAgent) (best : ClassroomAgent),
      (rest.foldl (fun b x => if key x > key b then x else b) best = best ∨
        rest.foldl (fun b x => if key x > key b then x else b) best ∈ rest) ∧
      key best ≤ key (rest.foldl (fun b x => if key x > key b then x else b) best) ∧
      ∀ x ∈ rest, key x ≤ key (rest.foldl (fun b x => if key x > key b then x else b) best) := by
  intro rest
  induction rest with
  | nil => intro best; simp
  | cons y ys ih =>
      intro best
      simp only [List.foldl_cons]
      set b2 := if key y > key best then y else best with hb2
      obtain ⟨hmem, hle, hall⟩ := ih b2
      have hbb : key best ≤ key b2 := by
        rw [hb2]
        split_ifs with h
        · exact le_of_lt h
        · exact le_refl _
      have hyb : key y ≤ key b2 := by
        rw [hb2]
        split_ifs with h
        · exact le_refl _
        · exact le_of_not_lt h
      refine ⟨?_, le_trans hbb hle, ?_⟩
      · rcases hmem with h | h
        · rw [h, hb2]
          split_ifs with hc
          · exact Or.inr (List.mem_cons_self y ys)
          · exact Or.inl rfl
        · exact Or.inr (List.mem_cons_of_mem y h)
      · intro x hx
        rcases List.mem_cons.mp hx with rfl | hx
        · exact le_trans hyb hle
        · exact hall x hx

lemma maxByFirst_spec {β : Type} [LinearOrder β] (key : ClassroomAgent → β)
    {l : List ClassroomAgent} {m : ClassroomAgent}
    (h : maxByFirst key l = some m) :
    m ∈ l ∧ ∀ x ∈ l, key x ≤ key m := by
  cases l with
  | nil => simp [maxByFirst] at h
  | cons a rest =>
      simp only [maxByFirst, Option.some.injEq] at h
      obtain ⟨hmem, hle, hall⟩ := foldl_max_spec key rest a
      subst h
      constructor
      · rcases hmem with h | h
        · rw [h]; exact List.mem_cons_self a rest
        · exact List.mem_cons_of_mem a h
      · intro x hx
        rcases List.mem_cons.mp hx with rfl | hx
        · exact hle
        · exact hall x hx

lemma maxByFirst_isSome {β : Type} [LinearOrder β] (key : ClassroomAgent → β)
    {l : List ClassroomAgent} (h : l ≠ []) :
    ∃ m, maxByFirst key l = some m := by
  cases l with
  | nil => exact absurd rfl h
  | cons a rest => exact ⟨_, rfl⟩

lemma firstDebtTarget_some {cs : List Commitment} {ts : List ClassroomAgent}
    {t : ClassroomAgent} (h : firstDebtTarget cs ts = some t) :
    t ∈ ts ∧ ∃ c ∈ cs, c.status = "pending" ∧ c.creditor = t.name := by
  induction cs with
  | nil => simp [firstDebtTarget] at h
  | cons c rest ih =>
      simp only [firstDebtTarget] at h
      by_cases hp : c.status = "pending"
      · rw [if_pos hp] at h
        cases hf : ts.find? (fun x => x.name == c.creditor) with
        | some u =>
            rw [hf] at h
            simp only [Option.some.injEq] at h
            subst h
            have hmem := List.mem_of_find?_eq_some hf
            have hpred := List.find?_some hf
            simp only [beq_iff_eq] at hpred
            exact ⟨hmem, c, List.mem_cons_self c rest, hp, hpred.symm⟩
        | none =>
            rw [hf] at h
            obtain ⟨hmem, c', hc', hp', hcr'⟩ := ih h
            exact ⟨hmem, c', List.mem_cons_of_mem c hc', hp', hcr'⟩
      · rw [if_neg hp] at h
        obtain ⟨hmem, c', hc', hp', hcr'⟩ := ih h
        exact ⟨hmem, c', List.mem_cons_of_mem c hc', hp', hcr'⟩

lemma firstDebtTarget_none {cs : List Commitment} {ts : List ClassroomAgent}
    (h : firstDebtTarget cs ts = none) :
    ∀ c ∈ cs, c.status = "pending" → ∀ t ∈ ts, t.name ≠ c.creditor := by
  induction cs with
  | nil => intro c hc; simp at hc
  | cons c rest ih =>
      simp only [firstDebtTarget] at h
      intro c' hc' hp' t ht
      by_cases hp : c.status = "pending"
      · rw [if_pos hp] at h
        cases hf : ts.find? (fun x => x.name == c.creditor) with
        | some u => rw [hf] at h; exact absurd h (by simp)
        | none =>
            rw [hf] at h
            rcases List.mem_cons.mp hc' with rfl | hc'
            · have := List.find?_eq_none.mp hf t ht
              simpa [beq_iff_eq] using this
            · exact ih h c' hc' hp' t ht
      · rw [if_neg hp] at h
        rcases List.mem_cons.mp hc' with rfl | hc'
        · exact absurd hp' hp
        · exact ih h c' hc' hp' t ht

lemma distribute_touch_fields (c : Commitment) (a : ClassroomAgent) :
    (distribute_touch c a).name = a.name ∧
    (distribute_touch c a).commitments_made =
      a.commitments_made ++ (if a.name = c.debtor then [c] else []) ∧
    (distribute_touch c a).commitments_received =
      a.commitments_received ++ (if a.name = c.creditor then [c] else []) := by
  unfold distribute_touch
  refine ⟨rfl, rfl, rfl⟩

lemma distribute_touch_console_fields (iN tN : String) (c : Commitment)
    (a : ClassroomAgent) :
    (distribute_touch_console iN tN c a).name = a.name ∧
    (distribute_touch_console iN tN c a).commitments_made =
      a.commitments_made ++ (if a.name = iN then [c] else []) ∧
    (distribute_touch_console iN tN c a).commitments_received =
      a.commitments_received ++ (if a.name = tN then [c] else []) := by
  unfold distribute_touch_console
  refine ⟨rfl, rfl, rfl⟩

lemma success_touch_fields (n1 n2 : String) (a : ClassroomAgent) :
    (success_touch n1 n2 a).name = a.name ∧
    (success_touch n1 n2 a).commitments_made = a.commitments_made ∧
    (success_touch n1 n2 a).commitments_received = a.commitments_received := by
  unfold success_touch bumpAgentScore
  dsimp only
  split_ifs <;> simp

lemma check_touch_fields (vN iN : String) (st : CheckState) (a : ClassroomAgent) :
    (check_touch vN iN st a).name = a.name ∧
    (check_touch vN iN st a).commitments_made =
      (if a.name = vN then st.processed else a.commitments_made) ∧
    (check_touch vN iN st a).commitments_received = a.commitments_received := by
  unfold check_touch
  dsimp only
  split_ifs <;> simp

lemma load_touch_fields (c : Commitment) (a : ClassroomAgent) :
    (load_touch c a).name = a.name ∧
    (load_touch c a).commitments_made =
      a.commitments_made ++ (if a.name = c.debtor then [c] else []) ∧
    (load_touch c a).commitments_received =
      a.commitments_received ++ (if a.name = c.creditor then [c] else []) := by
  unfold load_touch
  refine ⟨rfl, rfl, rfl⟩

lemma check_web_foldl (iN : String) :
    ∀ (cs : List Commitment) (st : CheckState),
      cs.foldl (check_step iN) st =
        { processed := st.processed ++ cs.map (check_mark iN),
          extraViolations := st.extraViolations +
            cs.countP (fun c => decide (c.creditor = iN ∧ c.status = "pending")),
          repScore := (fun s => max 0 (s - 5))^[cs.countP
            (fun c => decide (c.creditor = iN ∧ c.status = "pending"))] st.repScore } := by
  intro cs
  induction cs with
  | nil => intro st; simp
  | cons c rest ih =>
      intro st
      simp only [List.foldl_cons, List.map_cons, List.countP_cons]
      rw [ih]
      by_cases h : c.creditor = iN ∧ c.status = "pending"
      · have hb : decide (c.creditor = iN ∧ c.status = "pending") = true := by
          simp [h.1, h.2]
        simp only [check_step, check_mark, if_pos h, hb, if_true,
          eq_self_iff_true, CheckState.mk.injEq]
        refine ⟨by simp, by omega, ?_⟩
        rw [Function.iterate_add_apply, Function.iterate_one]
      · have hb : decide (c.creditor = iN ∧ c.status = "pending") = false := by
          simpa using h
        simp only [check_step, check_mark, if_neg h, hb, CheckState.mk.injEq]
        refine ⟨by simp, by simp, by simp⟩

lemma check_web_eq (made : List Commitment) (iN : String) (r : Int) :
    check_for_violation_web made iN r =
      { processed := made.map (check_mark iN),
        extraViolations := made.countP
          (fun c => decide (c.creditor = iN ∧ c.status = "pending")),
        repScore := (fun s => max 0 (s - 5))^[made.countP
          (fun c => decide (c.creditor = iN ∧ c.status = "pending"))] r } := by
  unfold check_for_violation_web
  rw [check_web_foldl]
  simp

lemma check_web_processed (made : List Commitment) (iN : String) (r : Int) :
    (check_for_violation_web made iN r).processed = made.map (check_mark iN) := by
  rw [check_web_eq]

lemma find_name_unique : ∀ {agents : List ClassroomAgent},
    (agents.map (fun a => a.name)).Nodup →
    ∀ {a : ClassroomAgent}, a ∈ agents →
    agents.find? (fun x => x.name == a.name) = some a := by
  intro agents
  induction agents with
  | nil => intro _ a ha; simp at ha
  | cons x rest ih =>
      intro hnodup a ha
      simp only [List.map_cons, List.nodup_cons] at hnodup
      rcases List.mem_cons.mp ha with rfl | ha'
      · simp [List.find?]
      · have hx : (x.name == a.name) = false := by
          simp only [beq_eq_false_iff_ne, ne_eq]
          intro h
          exact hnodup.1 (h ▸ List.mem_map_of_mem (fun a => a.name) ha')
        simp only [List.find?, hx]
        exact ih hnodup.2 ha'

lemma find_name_of_mem {agents : List ClassroomAgent}
    (hnodup : (agents.map (fun a => a.name)).Nodup)
    {v : ClassroomAgent} (hv : v ∈ agents) {n : String} (hn : v.name = n) :
    agents.find? (fun x => x.name == n) = some v := by
  subst hn
  exact find_name_unique hnodup hv

lemma name_inj {agents : List ClassroomAgent}
    (hnodup : (agents.map (fun a => a.name)).Nodup)
    {a b : ClassroomAgent} (ha : a ∈ agents) (hb : b ∈ agents)
    (h : a.name = b.name) : a = b :=
  List.inj_on_of_nodup_map hnodup ha hb h

lemma map3_success_distribute {β : Type} (g : String → List Commitment → List Commitment → β)
    (agents : List ClassroomAgent) (c : Commitment) (n1 n2 : String) :
    (update_reputations_success (distribute_commitment agents c) n1 n2).map
        (fun a => g a.name a.commitments_made a.commitments_received) =
      agents.map (fun a => g a.name
        (a.commitments_made ++ (if a.name = c.debtor then [c] else []))
        (a.commitments_received ++ (if a.name = c.creditor then [c] else []))) := by
  unfold update_reputations_success distribute_commitment
  rw [List.map_map, List.map_map]
  apply List.map_congr_left
  intro a ha
  obtain ⟨hn1, hm1, hr1⟩ := distribute_touch_fields c a
  obtain ⟨hn2, hm2, hr2⟩ := success_touch_fields n1 n2 (distribute_touch c a)
  simp only [Function.comp_apply, hn2, hm2, hr2, hn1, hm1, hr1]

lemma map3_success_distribute_console {β : Type}
    (g : String → List Commitment → List Commitment → β)
    (agents : List ClassroomAgent) (iN tN : String) (c : Commitment) :
    (update_reputations_success (distribute_commitment_console agents iN tN c) iN tN).map
        (fun a => g a.name a.commitments_made a.commitments_received) =
      agents.map (fun a => g a.name
        (a.commitments_made ++ (if a.name = iN then [c] else []))
        (a.commitments_received ++ (if a.name = tN then [c] else []))) := by
  unfold update_reputations_success distribute_commitment_console
  rw [List.map_map, List.map_map]
  apply List.map_congr_left
  intro a ha
  obtain ⟨hn1, hm1, hr1⟩ := distribute_touch_console_fields iN tN c a
  obtain ⟨hn2, hm2, hr2⟩ := success_touch_fields iN tN (distribute_touch_console iN tN c a)
  simp only [Function.comp_apply, hn2, hm2, hr2, hn1, hm1, hr1]

lemma map3_apply_check {β : Type} (g : String → List Commitment → List Commitment → β)
    {agents : List ClassroomAgent} {vN iN : String}
    (hnodup : (agents.map (fun a => a.name)).Nodup)
    {v i : ClassroomAgent} (hv : v ∈ agents) (hi : i ∈ agents)
    (hvn : v.name = vN) (hin : i.name = iN) :
    (apply_check_web agents vN iN).map
        (fun a => g a.name a.commitments_made a.commitments_received) =
      agents.map (fun a => g a.name
        (if a.name = vN then a.commitments_made.map (check_mark iN)
          else a.commitments_made)
        a.commitments_received) := by
  unfold apply_check_web
  rw [find_name_of_mem hnodup hv hvn, find_name_of_mem hnodup hi hin]
  rw [List.map_map]
  apply List.map_congr_left
  intro a ha
  obtain ⟨hn, hm, hr⟩ := check_touch_fields vN iN
    (check_for_violation_web v.commitments_made iN (i.reputation_scores vN)) a
  by_cases h : a.name = vN
  · have hav : a = v := name_inj hnodup ha hv (h.trans hvn.symm)
    subst hav
    simp only [Function.comp_apply, hn, hm, hr, if_pos h, check_web_processed]
  · simp only [Function.comp_apply, hn, hm, hr, if_neg h]

lemma apply_check_lengths (agents : List ClassroomAgent) (vN iN : String)
    (hnodup : (agents.map (fun a => a.name)).Nodup) :
    (apply_check_web agents vN iN).map
        (fun a => (a.commitments_made.length, a.commitments_received.length)) =
      agents.map (fun a => (a.commitments_made.length, a.commitments_received.length)) := by
  unfold apply_check_web
  cases hf : agents.find? (fun a => a.name == vN) with
  | none => rfl
  | some v =>
      cases hfi : agents.find? (fun a => a.name == iN) with
      | none => rfl
      | some i =>
          rw [List.map_map]
          apply List.map_congr_left
          intro a ha
          obtain ⟨hn, hm, hr⟩ := check_touch_fields vN iN
            (check_for_violation_web v.commitments_made iN (i.reputation_scores vN)) a
          by_cases h : a.name = vN
          · have hveq : v.name = vN := by
              have := List.find?_some hf
              simpa using this
            have hav : a = v := name_inj hnodup ha (List.mem_of_find?_eq_some hf)
              (h.trans hveq.symm)
            subst hav
            simp only [Function.comp_apply, hn, hm, hr, if_pos h, check_web_processed,
              List.length_map]
          · simp only [Function.comp_apply, hn, hm, hr, if_neg h]

lemma save_foldl_eq_allMade_foldl (agents : List ClassroomAgent) :
    ∀ acc, agents.foldl (fun acc a => a.commitments_made.foldl save_step acc) acc
      = (allMade agents).foldl save_step acc := by
  induction agents with
  | nil => intro acc; simp [allMade]
  | cons a rest ih =>
      intro acc
      simp only [List.foldl_cons, allMade, List.map_cons, List.flatten_cons,
        List.foldl_append]
      exact ih _

lemma save_fold_invariant : ∀ (cs : List Commitment)
    (acc : List Commitment × List CommitId),
    acc.2 = acc.1.map commitId → acc.2.Nodup →
    ((cs.foldl save_step acc).2 = (cs.foldl save_step acc).1.map commitId ∧
      (cs.foldl save_step acc).2.Nodup) := by
  intro cs
  induction cs with
  | nil => intro acc h1 h2; exact ⟨h1, h2⟩
  | cons c rest ih =>
      intro acc h1 h2
      simp only [List.foldl_cons]
      unfold save_step
      by_cases hmem : commitId c ∈ acc.2
      · rw [if_pos hmem]
        exact ih acc h1 h2
      · rw [if_neg hmem]
        refine ih _ ?_ ?_
        · simp [h1]
        · rw [List.nodup_append]
          refine ⟨h2, List.nodup_singleton _, ?_⟩
          intro x hx hxc
          rw [List.mem_singleton] at hxc
          subst hxc
          exact hmem hx

lemma save_commitments_nodup (agents : List ClassroomAgent) :
    ((save_commitments_to_file agents).commitments.map commitId).Nodup := by
  unfold save_commitments_to_file
  simp only
  rw [save_foldl_eq_allMade_foldl]
  obtain ⟨h1, h2⟩ := save_fold_invariant (allMade agents) ([], []) (by simp) (by simp)
  rw [← h1]
  exact h2

lemma save_fold_complete : ∀ (cs : List Commitment)
    (l : List Commitment) (ids : List CommitId),
    ids = l.map commitId → ((l ++ cs).map commitId).Nodup →
    cs.foldl save_step (l, ids) = (l ++ cs, (l ++ cs).map commitId) := by
  intro cs
  induction cs with
  | nil =>
      intro l ids h1 h2
      simp [h1]
  | cons c rest ih =>
      intro l ids h1 h2
      simp only [List.foldl_cons]
      unfold save_step
      have hnotmem : commitId c ∉ ids := by
        rw [h1]
        rw [List.map_append, List.nodup_append] at h2
        exact fun hmem => (h2.2.2 hmem) (by simp)
      rw [if_neg hnotmem]
      have hstep := ih (l ++ [c]) (ids ++ [commitId c]) (by simp [h1])
        (by simpa [List.append_assoc] using h2)
      simpa [List.append_assoc] using hstep

lemma save_commitments_of_nodup {agents : List ClassroomAgent}
    (h : ((allMade agents).map commitId).Nodup) :
    (save_commitments_to_file agents).commitments = allMade agents := by
  unfold save_commitments_to_file
  simp only
  rw [save_foldl_eq_allMade_foldl]
  rw [save_fold_complete (allMade agents) [] [] (by simp) (by simpa using h)]
  simp

lemma load_commit_names (agents : List ClassroomAgent) (c : Commitment) :
    (load_commit agents c).map (fun a => a.name) = agents.map (fun a => a.name) := by
  unfold load_commit
  rw [List.map_map]
  apply List.map_congr_left
  intro a ha
  exact (load_touch_fields c a).1

lemma load_commit_allMade_perm : ∀ (agents : List ClassroomAgent) (c : Commitment),
    (agents.map (fun a => a.name)).Nodup →
    c.debtor ∈ agents.map (fun a => a.name) →
    (allMade (load_commit agents c)).Perm (allMade agents ++ [c]) := by
  intro agents c
  induction agents with
  | nil => intro _ hdeb; simp at hdeb
  | cons a rest ih =>
      intro hnodup hdeb
      simp only [List.map_cons, List.nodup_cons] at hnodup
      have hstep : allMade (load_commit (a :: rest) c) =
          (load_touch c a).commitments_made ++ allMade (load_commit rest c) := by
        simp [load_commit, allMade]
      have hcons : allMade (a :: rest) = a.commitments_made ++ allMade rest := by
        simp [allMade]
      obtain ⟨hn, hm, _⟩ := load_touch_fields c a
      by_cases hd : a.name = c.debtor
      · have hrest : allMade (load_commit rest c) = allMade rest := by
          unfold load_commit allMade
          rw [List.map_map]
          congr 1
          apply List.map_congr_left
          intro x hx
          have hxd : x.name ≠ c.debtor := by
            intro hcontra
            exact hnodup.1 (by
              rw [hd, ← hcontra]
              exact List.mem_map_of_mem (fun a => a.name) hx)
          obtain ⟨_, hm2, _⟩ := load_touch_fields c x
          simp only [Function.comp_apply, hm2, if_neg hxd, List.append_nil]
        rw [hstep, hrest, hm, if_pos hd, hcons]
        rw [List.append_assoc a.commitments_made [c] (allMade rest),
          List.append_assoc a.commitments_made (allMade rest) [c]]
        exact (List.perm_append_comm).append_left _
      · have hdeb' : c.debtor ∈ rest.map (fun a => a.name) := by
          rcases List.mem_cons.mp hdeb with hcontra | h'
          · exact absurd hcontra.symm hd
          · exact h'
        rw [hstep, hm, if_neg hd, List.append_nil, hcons, List.append_assoc]
        exact (ih hnodup.2 hdeb').append_left a.commitments_made

lemma load_fold_allMade_perm : ∀ (cs : List Commitment) (agents : List ClassroomAgent),
    (agents.map (fun a => a.name)).Nodup →
    (∀ c ∈ cs, c.debtor ∈ agents.map (fun a => a.name)) →
    (allMade (cs.foldl load_commit agents)).Perm (allMade agents ++ cs) := by
  intro cs
  induction cs with
  | nil => intro agents _ _; simp
  | cons c rest ih =>
      intro agents hnodup hdeb
      simp only [List.foldl_cons]
      have hnames := load_commit_names agents c
      have h1 := load_commit_allMade_perm agents c hnodup (hdeb c (by simp))
      have h2 := ih (load_commit agents c)
        (by rw [hnames]; exact hnodup)
        (by intro x hx; rw [hnames]; exact hdeb x (List.mem_cons_of_mem c hx))
      refine h2.trans ?_
      have h3 := h1.append_right rest
      have h4 : (allMade agents ++ [c]) ++ rest = allMade agents ++ (c :: rest) := by
        simp
      rw [← h4]
      exact h3

lemma load_reputations_allMade (reps : List (String × (String → Int))) :
    ∀ agents, allMade (load_reputations agents reps) = allMade agents := by
  unfold load_reputations
  induction reps with
  | nil => intro agents; simp
  | cons nr rest ih =>
      intro agents
      simp only [List.foldl_cons]
      rw [ih]
      unfold allMade
      rw [List.map_map]
      congr 1
      apply List.map_congr_left
      intro a ha
      by_cases h : a.name = nr.1 <;> simp [Function.comp, h]

lemma allMade_clear (agents : List ClassroomAgent) :
    allMade (agents.map clear_lists) = [] := by
  unfold allMade clear_lists
  rw [List.map_map]
  induction agents with
  | nil => rfl
  | cons a rest ih => simpa using ih

lemma clear_names (agents : List ClassroomAgent) :
    (agents.map clear_lists).map (fun a => a.name) = agents.map (fun a => a.name) := by
  rw [List.map_map]
  apply List.map_congr_left
  intro a ha
  rfl

/-- C4: with at least two (distinctly named) participants, the negotiation
phase picks as initiator a participant with the maximal student count, and as
target a peer owed a pending commitment by the initiator whenever one exists,
otherwise a peer with the maximal score in the initiator's reputation
table. -/
theorem negotiation_selection_spec (agents : List ClassroomAgent)
    (hlen : 2 ≤ agents.length)
    (hnodup : (agents.map (fun a => a.name)).Nodup) :
    ∃ init tgt, pickInitiator agents = some init ∧
      select_negotiation_target agents init = some tgt ∧
      init ∈ agents ∧ (∀ a ∈ agents, a.student_count ≤ init.student_count) ∧
      tgt ∈ agents ∧ tgt.name ≠ init.name ∧
      ((∃ c ∈ init.commitments_made, c.status = "pending" ∧ c.creditor = tgt.name) ∨
        ((∀ c ∈ init.commitments_made, c.status = "pending" →
            ∀ a ∈ agents, a.name ≠ init.name → a.name ≠ c.creditor) ∧
          (∀ a ∈ agents, a.name ≠ init.name →
            init.reputation_scores a.name ≤ init.reputation_scores tgt.name))) := by
  obtain ⟨init, hinit⟩ : ∃ i, pickInitiator agents = some i := by
    cases agents with
    | nil => simp at hlen
    | cons a rest => exact ⟨_, rfl⟩
  have hinit2 : maxByFirst (fun a => a.student_count) agents = some init := hinit
  obtain ⟨hinitmem, hinitmax⟩ := maxByFirst_spec (fun a => a.student_count) hinit2
  have hfilter_mem : ∀ a ∈ agents, a.name ≠ init.name →
      a ∈ agents.filter (fun a => a.name != init.name) := by
    intro a ha hne
    exact List.mem_filter.mpr ⟨ha, by simpa [bne_iff_ne] using hne⟩
  have htargets : agents.filter (fun a => a.name != init.name) ≠ [] := by
    obtain ⟨x, y, rest, rfl⟩ : ∃ x y rest, agents = x :: y :: rest := by
      match agents, hlen with
      | x :: y :: rest, _ => exact ⟨x, y, rest, rfl⟩
    have hxy : x.name ≠ y.name := by
      simp only [List.map_cons, List.nodup_cons, List.mem_cons] at hnodup
      exact fun h => hnodup.1 (Or.inl h)
    by_cases hx : x.name = init.name
    · have hy : y.name ≠ init.name := fun h => hxy (hx.trans h.symm)
      exact List.ne_nil_of_mem (hfilter_mem y (by simp) hy)
    · exact List.ne_nil_of_mem (hfilter_mem x (by simp) hx)
  cases hd : firstDebtTarget init.commitments_made
      (agents.filter (fun a => a.name != init.name)) with
  | some t =>
      have hsel : select_negotiation_target agents init = some t := by
        unfold select_negotiation_target
        dsimp only
        rw [hd]
      obtain ⟨htmem, c, hc, hp, hcr⟩ := firstDebtTarget_some hd
      have htmem' := List.mem_filter.mp htmem
      refine ⟨init, t, hinit, hsel, hinitmem, hinitmax, htmem'.1, ?_, ?_⟩
      · simpa [bne_iff_ne] using htmem'.2
      · exact Or.inl ⟨c, hc, hp, hcr⟩
  | none =>
      obtain ⟨tgt, htgt⟩ := maxByFirst_isSome
        (fun a => init.reputation_scores a.name) htargets
      have hsel : select_negotiation_target agents init = some tgt := by
        unfold select_negotiation_target
        dsimp only
        rw [hd, htgt]
      obtain ⟨htmem, hmax⟩ := maxByFirst_spec
        (fun a => init.reputation_scores a.name) htgt
      have htmem' := List.mem_filter.mp htmem
      refine ⟨init, tgt, hinit, hsel, hinitmem, hinitmax, htmem'.1, ?_, Or.inr ⟨?_, ?_⟩⟩
      · simpa [bne_iff_ne] using htmem'.2
      · intro c hc hp a ha hne
        exact firstDebtTarget_none hd c hc hp a (hfilter_mem a ha hne)
      · intro a ha hne
        exact hmax a (hfilter_mem a ha hne)

/-- C1: the heuristic in `propose_commitment` yields a −4 minute adjustment at
congestion 0.8, −2 at 0.5, −1 at 0.2, and at the exact boundaries the strict
inequalities of the code give −2 at exactly 0.7 and −1 at exactly 0.4. -/
theorem propose_adjustment_spec_values :
    propose_adjustment 0.8 = -4 ∧ propose_adjustment 0.5 = -2 ∧
    propose_adjustment 0.2 = -1 ∧ propose_adjustment 0.7 = -2 ∧
    propose_adjustment 0.4 = -1 := by
  refine ⟨?_, ?_, ?_, ?_, ?_⟩ <;> norm_num [propose_adjustment]

/-- C2: starting from the initial score of 10 for every pair, any sequence of
`update_reputations` calls with outcomes "success" (+1 to both sides, clamped)
or "violation" (−5 to the initiator's score of the violator, clamped) leaves
every participant's integer score of every peer within [0, 15]. -/
theorem reputation_scores_bounded (evs : List (String × String × String))
    (p q : String) :
    0 ≤ apply_rep_events evs p q ∧ apply_rep_events evs p q ≤ 15 :=
  apply_rep_events_bounds evs p q

/-- C3 (amended): for a state file produced by `save_commitments_to_file`,
provided every persisted record's debtor is the name of a current
(distinctly named) participant, loading it and immediately re-saving leaves
the number of commitment records unchanged, and reloading creates no
duplicate records (the load clears all lists first and distributes each
record to exactly one made list). -/
theorem load_save_roundtrip (agents agents2 : List ClassroomAgent)
    (hnodup2 : (agents2.map (fun a => a.name)).Nodup)
    (hdeb : ∀ c ∈ (save_commitments_to_file agents).commitments,
      c.debtor ∈ agents2.map (fun a => a.name)) :
    (save_commitments_to_file (load_commitments_from_file
        (save_commitments_to_file agents) agents2)).commitments.length =
      (save_commitments_to_file agents).commitments.length ∧
    ((allMade (load_commitments_from_file
        (save_commitments_to_file agents) agents2)).map commitId).Nodup := by
  have hFnodup : ((save_commitments_to_file agents).commitments.map commitId).Nodup :=
    save_commitments_nodup agents
  have hre : allMade (load_commitments_from_file
      (save_commitments_to_file agents) agents2) =
      allMade ((save_commitments_to_file agents).commitments.foldl load_commit
        (agents2.map clear_lists)) := by
    unfold load_commitments_from_file
    rw [load_reputations_allMade]
  have hperm0 := load_fold_allMade_perm (save_commitments_to_file agents).commitments
    (agents2.map clear_lists)
    (by rw [clear_names]; exact hnodup2)
    (by intro c hc; rw [clear_names]; exact hdeb c hc)
  have hperm : (allMade (load_commitments_from_file
      (save_commitments_to_file agents) agents2)).Perm
      (save_commitments_to_file agents).commitments := by
    rw [hre]
    simpa [allMade_clear] using hperm0
  have hnodup_re : ((allMade (load_commitments_from_file
      (save_commitments_to_file agents) agents2)).map commitId).Nodup :=
    ((hperm.map commitId).nodup_iff).mpr hFnodup
  refine ⟨?_, hnodup_re⟩
  rw [save_commitments_of_nodup hnodup_re]
  exact hperm.length_eq

/-- C3 counterexample: the claim fails as stated.  A state in which
`ClassroomAgent_C1`'s made list holds a record under the foreign debtor name
`GhostAgent` (reachable through the console `ACCEPT` branch, which appends
whatever the parsed terms name) saves to a one-record file, but loading that
file into the current participants drops the record (its debtor matches no
agent), so the immediate re-save holds zero records. -/
theorem load_save_roundtrip_counterexample :
    (save_commitments_to_file ghostHolderAgents).commitments.length = 1 ∧
    (save_commitments_to_file (load_commitments_from_file
        (save_commitments_to_file ghostHolderAgents) demoAgents)).commitments.length
      = 0 := by
  refine ⟨rfl, rfl⟩

/-- C5 (amended): when the structured fragment of an accepted proposal parses
to debtor `D` and creditor `C` and — as the proposal prompt dictates — `D` is
the initiator and `C` the target, then in both variants the created
commitment is appended exactly to `D`'s made list and `C`'s received list,
and every other participant's lists are unchanged. -/
theorem accepted_commitment_placement (agents : List ClassroomAgent)
    (initiatorName targetName : String) (p : ParsedTerms) (now : Nat)
    (hd : p.debtor = initiatorName) (hc : p.creditor = targetName) :
    ((commitment_execution_web agents initiatorName targetName
        EvalOutcome.accept (some p) now).map
        (fun a => (a.name, a.commitments_made, a.commitments_received)) =
      agents.map (fun a => (a.name,
        a.commitments_made ++ (if a.name = p.debtor then [create_commitment p now] else []),
        a.commitments_received ++ (if a.name = p.creditor then [create_commitment p now] else [])))) ∧
    ((commitment_execution_console_accept agents initiatorName targetName
        (some p) now).map
        (fun a => (a.name, a.commitments_made, a.commitments_received)) =
      agents.map (fun a => (a.name,
        a.commitments_made ++ (if a.name = p.debtor then [create_commitment p now] else []),
        a.commitments_received ++ (if a.name = p.creditor then [create_commitment p now] else [])))) := by
  constructor
  · have h := map3_success_distribute (fun n m r => (n, m, r)) agents
      (create_commitment p now) initiatorName targetName
    simp only [commitment_execution_web]
    simpa [create_commitment] using h
  · have h := map3_success_distribute_console (fun n m r => (n, m, r)) agents
      initiatorName targetName (create_commitment p now)
    simp only [commitment_execution_console_accept]
    simpa [create_commitment, hd, hc] using h

/-- C5 counterexample: the claim fails as stated on the console variant.
With parsed debtor `ClassroomAgent_C2` and creditor `ClassroomAgent_C1` but
initiator `ClassroomAgent_C1` and target `ClassroomAgent_C2`, the accepted
deal's commitment lands in the *initiator's* made list, not the parsed
debtor's: `C2`'s made list stays empty. -/
theorem accepted_commitment_placement_counterexample :
    swappedTerms.debtor = "ClassroomAgent_C2" ∧
    swappedTerms.creditor = "ClassroomAgent_C1" ∧
    (commitment_execution_console_accept demoAgents "ClassroomAgent_C1"
        "ClassroomAgent_C2" (some swappedTerms) 0).map
      (fun a => (a.name, a.commitments_made, a.commitments_received)) =
      [("ClassroomAgent_C1", [create_commitment swappedTerms 0], []),
        ("ClassroomAgent_C2", [], [create_commitment swappedTerms 0])] := by
  refine ⟨rfl, rfl, rfl⟩

/-- C6 (amended, web variant): a commitment's status moves from `"pending"`
to `"violated"` exactly when its debtor is the chosen negotiation target,
the commitment is still pending toward the initiator (its creditor), *and*
the target's reply is COUNTER or REJECT (on ACCEPT no violation check runs);
the web check marks every such commitment (the console variant marks only
the first).  No other transition occurs: newly created commitments start
`"pending"`, a `"violated"` commitment is never altered again, and no
commitment ever becomes `"fulfilled"`. -/
theorem commitment_status_transitions (agents : List ClassroomAgent)
    (initiatorName targetName : String) (outcome : EvalOutcome)
    (parsed : Option ParsedTerms) (now : Nat)
    (hnodup : (agents.map (fun a => a.name)).Nodup)
    (hviol : ∃ v ∈ agents, v.name = targetName)
    (hinit : ∃ i ∈ agents, i.name = initiatorName) :
    ((commitment_execution_web agents initiatorName targetName outcome parsed now).map
        (fun a => (a.name, a.commitments_made)) =
      agents.map (fun a => (a.name,
        (if outcome ≠ EvalOutcome.accept ∧ a.name = targetName
          then a.commitments_made.map (check_mark initiatorName)
          else a.commitments_made) ++
        (match outcome, parsed with
          | EvalOutcome.accept, some p =>
              if a.name = p.debtor then [create_commitment p now] else []
          | EvalOutcome.counter true, some p =>
              if a.name = p.debtor then [create_commitment p now] else []
          | _, _ => [])))) ∧
    (∀ c, (check_mark initiatorName c).status = "violated" ↔
      (c.status = "violated" ∨ (c.creditor = initiatorName ∧ c.status = "pending"))) ∧
    (∀ c, c.status = "violated" → check_mark initiatorName c = c) ∧
    (∀ c, (check_mark initiatorName c).status = "fulfilled" ↔ c.status = "fulfilled") ∧
    (∀ p : ParsedTerms, (create_commitment p now).status = "pending") := by
  obtain ⟨v, hv, hvn⟩ := hviol
  obtain ⟨i, hi, hin⟩ := hinit
  refine ⟨?_, ?_, ?_, ?_, fun p => rfl⟩
  · cases outcome with
    | accept =>
        cases parsed with
        | none => simp [commitment_execution_web]
        | some p =>
            have h := map3_success_distribute (fun n m _ => (n, m)) agents
              (create_commitment p now) initiatorName targetName
            simp only [commitment_execution_web]
            simpa [create_commitment] using h
    | reject =>
        have h := map3_apply_check (fun n m _ => (n, m)) hnodup hv hi hvn hin
        simp only [commitment_execution_web]
        simpa using h
    | counter b =>
        cases b with
        | false =>
            have h := map3_apply_check (fun n m _ => (n, m)) hnodup hv hi hvn hin
            simp only [commitment_execution_web]
            simpa using h
        | true =>
            cases parsed with
            | none =>
                have h := map3_apply_check (fun n m _ => (n, m)) hnodup hv hi hvn hin
                simp only [commitment_execution_web]
                simpa using h
            | some p =>
                have h1 := map3_success_distribute (fun n m _ => (n, m))
                  (apply_check_web agents targetName initiatorName)
                  (create_commitment p now) initiatorName targetName
                have h2 := map3_apply_check
                  (fun n m _ => (n, m ++
                    (if n = p.debtor then [create_commitment p now] else [])))
                  hnodup hv hi hvn hin
                simp only [commitment_execution_web]
                simpa [create_commitment] using h1.trans h2
  · intro c
    unfold check_mark
    by_cases h : c.creditor = initiatorName ∧ c.status = "pending"
    · simp [h.1, h.2]
    · rw [if_neg h]
      constructor
      · exact fun hv' => Or.inl hv'
      · rintro (hv' | hcond)
        · exact hv'
        · exact absurd hcond h
  · intro c hc
    unfold check_mark
    rw [if_neg]
    rintro ⟨_, hpend⟩
    rw [hc] at hpend
    exact absurd hpend (by decide)
  · intro c
    unfold check_mark
    by_cases h : c.creditor = initiatorName ∧ c.status = "pending"
    · rw [if_pos h]
      constructor
      · intro hcontra
        have hcontra2 : ("violated" : String) = "fulfilled" := hcontra
        exact absurd hcontra2 (by decide)
      · intro hcontra
        exact absurd (h.2.symm.trans hcontra) (by decide)
    · rw [if_neg h]

/-- C6 counterexample: the claim fails as stated.  `ClassroomAgent_C2` is
chosen as the negotiation target while still holding a pending commitment
toward the initiator `ClassroomAgent_C1`, but the reply is ACCEPT, so no
violation check runs and the commitment stays `"pending"` instead of
transitioning to `"violated"`. -/
theorem commitment_status_transitions_counterexample :
    pendingDemoCommit.status = "pending" ∧
    pendingDemoCommit.creditor = "ClassroomAgent_C1" ∧
    (commitment_execution_web demoAgentsWithDebt "ClassroomAgent_C1"
        "ClassroomAgent_C2" EvalOutcome.accept none 0).map
      (fun a => a.commitments_made.map (fun c => c.status)) = [[], ["pending"]] := by
  refine ⟨rfl, rfl, rfl⟩

/-- C7: when the structured fragment of an accepted proposal is malformed
(`parse_commitment_from_text` returned `None`), the ACCEPT branch creates no
commitment and changes nothing at all, the parse is consulted exactly once
(the episode function takes its single result), the episode still completes
and the final `finally` save produces exactly the save of the unchanged
state; likewise a malformed counter-offer fragment adds no commitment to any
list. -/
theorem malformed_parse_skips_commitment (agents : List ClassroomAgent)
    (initiatorName targetName : String) (now : Nat) (b : Bool)
    (hnodup : (agents.map (fun a => a.name)).Nodup) :
    commitment_execution_web agents initiatorName targetName
      EvalOutcome.accept none now = agents ∧
    run_episode_web_save agents initiatorName targetName
      EvalOutcome.accept none now = save_commitments_to_file agents ∧
    (commitment_execution_web agents initiatorName targetName
        (EvalOutcome.counter b) none now).map
      (fun a => (a.commitments_made.length, a.commitments_received.length)) =
      agents.map (fun a => (a.commitments_made.length, a.commitments_received.length)) := by
  refine ⟨rfl, rfl, ?_⟩
  have h := apply_check_lengths agents targetName initiatorName hnodup
  cases b <;> simpa [commitment_execution_web] using h

/-- C9 (amended): the console and web `check_for_violation` agree exactly
when the violator holds no pending commitment toward the initiator — then
both mark nothing, record no violation and leave the score unchanged, and
the console call returns normally.  As soon as at least one pending
commitment matches, they always diverge: the console marks only the first
match, increments `violation_count` once, and then raises `NameError` from
the unbound `violator` in its `update_reputations` violation branch, so the
initiator's score of the violator never changes; the web variant marks every
match and applies the clamped −5 once per match. -/
theorem check_for_violation_variants_agree (initiatorName : String) (r : Int)
    (made : List Commitment) :
    (made.countP
        (fun c => decide (c.creditor = initiatorName ∧ c.status = "pending")) = 0 →
      check_for_violation_console initiatorName r made =
        Except.ok (check_for_violation_web made initiatorName r)) ∧
    (made.countP
        (fun c => decide (c.creditor = initiatorName ∧ c.status = "pending")) ≠ 0 →
      ∃ st, check_for_violation_console initiatorName r made = Except.error st ∧
        st.processed = mark_first initiatorName made ∧
        st.extraViolations = 1 ∧ st.repScore = r) := by
  induction made with
  | nil =>
      constructor
      · intro _
        rfl
      · intro h
        simp at h
  | cons c rest ih =>
      by_cases h : c.creditor = initiatorName ∧ c.status = "pending"
      · have hcnt : (c :: rest).countP
            (fun c => decide (c.creditor = initiatorName ∧ c.status = "pending")) =
            rest.countP (fun c => decide (c.creditor = initiatorName ∧ c.status = "pending")) + 1 :=
          List.countP_cons_of_pos _ _ (by simpa using h)
        constructor
        · intro h0
          rw [hcnt] at h0
          omega
        · intro _
          refine ⟨⟨{ c with status := "violated" } :: rest, 1, r⟩, ?_, ?_, rfl, rfl⟩
          · simp only [check_for_violation_console, if_pos h]
          · simp only [mark_first, if_pos h]
      · have hcnt : (c :: rest).countP
            (fun c => decide (c.creditor = initiatorName ∧ c.status = "pending")) =
            rest.countP (fun c => decide (c.creditor = initiatorName ∧ c.status = "pending")) :=
          List.countP_cons_of_neg _ _ (by simpa using h)
        constructor
        · intro h0
          rw [hcnt] at h0
          have hok := ih.1 h0
          simp only [check_for_violation_console, if_neg h, hok]
          rw [check_web_eq rest initiatorName r, check_web_eq (c :: rest) initiatorName r]
          simp only [Except.ok.injEq, CheckState.mk.injEq]
          refine ⟨?_, hcnt.symm, ?_⟩
          · rw [List.map_cons, show check_mark initiatorName c = c from if_neg h]
          · rw [hcnt]
        · intro hne
          rw [hcnt] at hne
          obtain ⟨st, herr, hproc, hextra, hrep⟩ := ih.2 hne
          refine ⟨⟨c :: st.processed, st.extraViolations, st.repScore⟩, ?_, ?_,
            by rw [hextra], by rw [hrep]⟩
          · simp only [check_for_violation_console, if_neg h, herr]
          · simp only [mark_first, if_neg h, hproc]

/-- C9 counterexample: the two variants are not equivalent.  With two pending
commitments toward the initiator, the console check marks only the first,
records one violation and raises `NameError` (modelled by `Except.error`)
with the initiator's score of the violator still 10, while the web check
marks both, records two violations and drops the score twice, 10 → 0. -/
theorem check_for_violation_variants_counterexample :
    check_for_violation_console "ClassroomAgent_C1" 10
        [pendingDemoCommit, pendingDemoCommit2] =
      Except.error
        { processed := [{ pendingDemoCommit with status := "violated" },
            pendingDemoCommit2],
          extraViolations := 1, repScore := 10 } ∧
    (check_for_violation_web [pendingDemoCommit, pendingDemoCommit2]
        "ClassroomAgent_C1" 10).processed.map (fun c => c.status) =
      ["violated", "violated"] ∧
    (check_for_violation_web [pendingDemoCommit, pendingDemoCommit2]
        "ClassroomAgent_C1" 10).extraViolations = 2 ∧
    (check_for_violation_web [pendingDemoCommit, pendingDemoCommit2]
        "ClassroomAgent_C1" 10).repScore = 0 := by
  refine ⟨rfl, by decide, by decide, by decide⟩

/-- C8: from any system state whose reputation tables satisfy the [0,15]
bounds — an invariant every reachable state enjoys, since scores start at 10
and each update clamps (see `reputation_scores_bounded`) — the state save
that the orchestrator's `finally` block performs even on cancellation
produces a file with no duplicate commitment records (pairwise-distinct
identity tuples) and with all saved reputation scores within bounds. -/
theorem cancelled_run_save_invariants (agents : List ClassroomAgent)
    (hrep : ∀ a ∈ agents, RepTableInBounds a.reputation_scores) :
    ((save_commitments_to_file agents).commitments.map commitId).Nodup ∧
    ∀ nr ∈ (save_commitments_to_file agents).reputations, RepTableInBounds nr.2 := by
  refine ⟨save_commitments_nodup agents, ?_⟩
  intro nr hnr
  unfold save_commitments_to_file at hnr
  simp only [List.mem_map] at hnr
  obtain ⟨a, ha, rfl⟩ := hnr
  exact hrep a ha

theorem parse_commitment_extracts_braces_witness :
    constNoneParser [] = none ∧ constNoneParser [closeBrace] = none ∧
    parse_commitment_from_text constNoneParser [openBrace, closeBrace] =
      (bracesSubstring [openBrace, closeBrace]).bind constNoneParser :=
  ⟨rfl, rfl,
    parse_commitment_extracts_braces constNoneParser rfl rfl [openBrace, closeBrace]⟩

theorem negotiation_selection_spec_witness :
    2 ≤ demoAgents.length ∧ (demoAgents.map (fun a => a.name)).Nodup ∧
    (∃ init tgt, pickInitiator demoAgents = some init ∧
      select_negotiation_target demoAgents init = some tgt ∧
      init ∈ demoAgents ∧ (∀ a ∈ demoAgents, a.student_count ≤ init.student_count) ∧
      tgt ∈ demoAgents ∧ tgt.name ≠ init.name ∧
      ((∃ c ∈ init.commitments_made, c.status = "pending" ∧ c.creditor = tgt.name) ∨
        ((∀ c ∈ init.commitments_made, c.status = "pending" →
            ∀ a ∈ demoAgents, a.name ≠ init.name → a.name ≠ c.creditor) ∧
          (∀ a ∈ demoAgents, a.name ≠ init.name →
            init.reputation_scores a.name ≤ init.reputation_scores tgt.name)))) :=
  ⟨by decide, by decide,
    negotiation_selection_spec demoAgents (by decide) (by decide)⟩

theorem load_save_roundtrip_witness :
    (demoAgents.map (fun a => a.name)).Nodup ∧
    (∀ c ∈ (save_commitments_to_file demoAgentsWithDebt).commitments,
      c.debtor ∈ demoAgents.map (fun a => a.name)) ∧
    ((save_commitments_to_file (load_commitments_from_file
        (save_commitments_to_file demoAgentsWithDebt) demoAgents)).commitments.length =
      (save_commitments_to_file demoAgentsWithDebt).commitments.length ∧
    ((allMade (load_commitments_from_file
        (save_commitments_to_file demoAgentsWithDebt) demoAgents)).map commitId).Nodup) :=
  ⟨by decide, by decide,
    load_save_roundtrip demoAgentsWithDebt demoAgents (by decide) (by decide)⟩

theorem accepted_commitment_placement_witness :
    matchedTerms.debtor = "ClassroomAgent_C1" ∧
    matchedTerms.creditor = "ClassroomAgent_C2" ∧
    (((commitment_execution_web demoAgents "ClassroomAgent_C1" "ClassroomAgent_C2"
        EvalOutcome.accept (some matchedTerms) 0).map
        (fun a => (a.name, a.commitments_made, a.commitments_received)) =
      demoAgents.map (fun a => (a.name,
        a.commitments_made ++
          (if a.name = matchedTerms.debtor then [create_commitment matchedTerms 0] else []),
        a.commitments_received ++
          (if a.name = matchedTerms.creditor then [create_commitment matchedTerms 0] else [])))) ∧
    ((commitment_execution_console_accept demoAgents "ClassroomAgent_C1"
        "ClassroomAgent_C2" (some matchedTerms) 0).map
        (fun a => (a.name, a.commitments_made, a.commitments_received)) =
      demoAgents.map (fun a => (a.name,
        a.commitments_made ++
          (if a.name = matchedTerms.debtor then [create_commitment matchedTerms 0] else []),
        a.commitments_received ++
          (if a.name = matchedTerms.creditor then [create_commitment matchedTerms 0] else []))))) :=
  ⟨rfl, rfl,
    accepted_commitment_placement demoAgents "ClassroomAgent_C1" "ClassroomAgent_C2"
      matchedTerms 0 rfl rfl⟩

theorem commitment_status_transitions_witness :
    (demoAgentsWithDebt.map (fun a => a.name)).Nodup ∧
    (∃ v ∈ demoAgentsWithDebt, v.name = "ClassroomAgent_C2") ∧
    (∃ i ∈ demoAgentsWithDebt, i.name = "ClassroomAgent_C1") ∧
    (((commitment_execution_web demoAgentsWithDebt "ClassroomAgent_C1"
        "ClassroomAgent_C2" EvalOutcome.reject none 0).map
        (fun a => (a.name, a.commitments_made)) =
      demoAgentsWithDebt.map (fun a => (a.name,
        (if EvalOutcome.reject ≠ EvalOutcome.accept ∧ a.name = "ClassroomAgent_C2"
          then a.commitments_made.map (check_mark "ClassroomAgent_C1")
          else a.commitments_made) ++
        (match EvalOutcome.reject, (none : Option ParsedTerms) with
          | EvalOutcome.accept, some p =>
              if a.name = p.debtor then [create_commitment p 0] else []
          | EvalOutcome.counter true, some p =>
              if a.name = p.debtor then [create_commitment p 0] else []
          | _, _ => [])))) ∧
    (∀ c, (check_mark "ClassroomAgent_C1" c).status = "violated" ↔
      (c.status = "violated" ∨
        (c.creditor = "ClassroomAgent_C1" ∧ c.status = "pending"))) ∧
    (∀ c, c.status = "violated" → check_mark "ClassroomAgent_C1" c = c) ∧
    (∀ c, (check_mark "ClassroomAgent_C1" c).status = "fulfilled" ↔
      c.status = "fulfilled") ∧
    (∀ p : ParsedTerms, (create_commitment p 0).status = "pending")) :=
  ⟨by decide, by decide, by decide,
    commitment_status_transitions demoAgentsWithDebt "ClassroomAgent_C1"
      "ClassroomAgent_C2" EvalOutcome.reject none 0 (by decide) (by decide) (by decide)⟩

theorem malformed_parse_skips_commitment_witness :
    (demoAgents.map (fun a => a.name)).Nodup ∧
    (commitment_execution_web demoAgents "ClassroomAgent_C1" "ClassroomAgent_C2"
      EvalOutcome.accept none 0 = demoAgents ∧
    run_episode_web_save demoAgents "ClassroomAgent_C1" "ClassroomAgent_C2"
      EvalOutcome.accept none 0 = save_commitments_to_file demoAgents ∧
    (commitment_execution_web demoAgents "ClassroomAgent_C1" "ClassroomAgent_C2"
        (EvalOutcome.counter true) none 0).map
      (fun a => (a.commitments_made.length, a.commitments_received.length)) =
      demoAgents.map (fun a => (a.commitments_made.length, a.commitments_received.length))) :=
  ⟨by decide,
    malformed_parse_skips_commitment demoAgents "ClassroomAgent_C1"
      "ClassroomAgent_C2" 0 true (by decide)⟩

theorem check_for_violation_variants_agree_witness :
    (([] : List Commitment).countP
      (fun c => decide (c.creditor = "ClassroomAgent_C1" ∧ c.status = "pending")) = 0 ∧
    check_for_violation_console "ClassroomAgent_C1" 10 [] =
      Except.ok (check_for_violation_web [] "ClassroomAgent_C1" 10)) ∧
    ([pendingDemoCommit].countP
      (fun c => decide (c.creditor = "ClassroomAgent_C1" ∧ c.status = "pending")) ≠ 0 ∧
    ∃ st, check_for_violation_console "ClassroomAgent_C1" 10 [pendingDemoCommit] =
        Except.error st ∧
      st.processed = mark_first "ClassroomAgent_C1" [pendingDemoCommit] ∧
      st.extraViolations = 1 ∧ st.repScore = 10) :=
  ⟨⟨by decide,
    (check_for_violation_variants_agree "ClassroomAgent_C1" 10 []).1 (by decide)⟩,
   ⟨by decide,
    (check_for_violation_variants_agree "ClassroomAgent_C1" 10 [pendingDemoCommit]).2
      (by decide)⟩⟩

theorem cancelled_run_save_invariants_witness :
    (∀ a ∈ demoAgents, RepTableInBounds a.reputation_scores) ∧
    (((save_commitments_to_file demoAgents).commitments.map commitId).Nodup ∧
    ∀ nr ∈ (save_commitments_to_file demoAgents).reputations, RepTableInBounds nr.2) := by
  have hrep : ∀ a ∈ demoAgents, RepTableInBounds a.reputation_scores := by
    intro a ha
    simp only [demoAgents, List.mem_cons, List.not_mem_nil, or_false] at ha
    rcases ha with rfl | rfl <;>
      exact fun q => by norm_num [demoAgent1, demoAgent2, demoRep]
  exact ⟨hrep, cancelled_run_save_invariants demoAgents hrep⟩
